import Mathlib

/-!
Shallow embedding of `src/football_plan_bot.py` (a football betting signal
bot) and proofs of the specification claims about it.

Modelling conventions:
* Instants (`datetime`) are integers (seconds of a timezone-resolved local
  clock); a calendar date stamp is the floor-day of the instant.  The code
  compares date stamps only for equality, so any injective-enough stamp works.
* The betting line is a rational number; the Python floats involved are
  `total + 0.5` for small integer totals, which float arithmetic represents
  and compares exactly, so `ℚ` is a faithful model.
* A JSON field that `safe_int` is applied to is modelled by `JField`:
  `.int n` for any value Python's `int()` converts (ints, numeric strings,
  floats after truncation), and `.missing` / `.null` / `.nonNumeric` for the
  cases where `int()` raises and the default is returned.
* Optional strings model `dict.get` results that may be `None`.
* I/O (HTTP calls, Telegram sends, CSV rows, `save_state`) is elided; the
  fixture lists an iteration works on are inputs of the `Env` record, and
  state mutation is explicit state passing.
-/

/-- A JSON value as seen by `safe_int`: either something `int()` accepts
(modelled by the integer it converts to) or one of the failure shapes
(absent key, JSON null, non-numeric value). -/
inductive JField where
  | missing : JField
  | null : JField
  | int (n : ℤ) : JField
  | nonNumeric : JField
deriving DecidableEq, Repr

/-- `safe_int(x, default)`: `int(x)` if that succeeds, else the default. -/
def safe_int : JField → ℤ → ℤ
  | JField.int n, _ => n
  | _, d => d

-- Strategy settings (module-level constants in the source).
def MIN_MINUTE : ℤ := 78
def MAX_MINUTE : ℤ := 86
def MAX_SIGNALS_PER_MATCH : ℕ := 1
def MAX_SIGNALS_PER_DAY : ℕ := 25
def ACTIVE_FROM_MIN : ℤ := 65
def ACTIVE_TO_MIN : ℤ := 95

-- Competition filter (Top-5 + UEFA).
def TOP5 : List (String × String) :=
  [("Premier League", "England"),
   ("La Liga", "Spain"),
   ("Serie A", "Italy"),
   ("Bundesliga", "Germany"),
   ("Ligue 1", "France")]

def UEFA : List (String × String) :=
  [("UEFA Champions League", "World"),
   ("UEFA Europa League", "World"),
   ("UEFA Europa Conference League", "World")]

def UEFA_NAMES : List String := UEFA.map Prod.fst

/-- A fixture record as the core logic reads it.  `date` is the parsed
kickoff instant (`none` models a missing or unparseable ISO timestamp,
i.e. the failure branches of `parse_fixture_start_local`). -/
structure Fixture where
  id : JField
  date : Option ℤ
  league_name : Option String
  league_country : Option String
  home_name : Option String
  away_name : Option String
  goals_home : JField
  goals_away : JField
  status_short : String
  status_elapsed : JField
deriving DecidableEq, Repr

/-- Python's `str.strip()`: drop leading and trailing whitespace.  (Core's
`String.trim` is not kernel-reducible; this equivalent definition keeps the
embedding executable.) -/
def pyStrip (s : String) : String :=
  ⟨((s.data.dropWhile Char.isWhitespace).reverse.dropWhile Char.isWhitespace).reverse⟩

/-- `is_target_competition`: (name, country) in TOP5, or name in UEFA_NAMES. -/
def is_target_competition (fx : Fixture) : Bool :=
  let name := pyStrip (fx.league_name.getD "")
  let country := pyStrip (fx.league_country.getD "")
  if (name, country) ∈ TOP5 then true
  else if name ∈ UEFA_NAMES then true
  else false

/-- `parse_fixture_start_local`: the parsed kickoff, `none` on a missing
date string or a parse failure. -/
def parse_fixture_start_local (fx : Fixture) : Option ℤ :=
  fx.date

/-- `current_score`: (home, away, total) with `safe_int(..., 0)` on each side. -/
def current_score (fx : Fixture) : ℤ × ℤ × ℤ :=
  let h := safe_int fx.goals_home 0
  let a := safe_int fx.goals_away 0
  (h, a, h + a)

/-- `choose_line`: `total_goals + 0.5`. -/
def choose_line (total_goals : ℤ) : ℚ :=
  (total_goals : ℚ) + 1/2

/-- Rationale text of the OVER branch (source line 205). -/
def overNote : String :=
  "близкий счёт (ничья/1 гол разницы) → чаще идёт давление на гол"

/-- Rationale text of the UNDER branch (source line 206). -/
def underNote : String :=
  "разрыв 2+ гола → часто команды доигрывают, шанс без гола выше"

/-- `pick_signal_basic(fx, minute)`: the one-shot betting rule.  The
`minute` argument is accepted and ignored, exactly as in the source. -/
def pick_signal_basic (fx : Fixture) (minute : ℤ) : Option (String × ℚ × String) :=
  let s := current_score fx
  let h := s.1
  let a := s.2.1
  let total := s.2.2
  let diff := (h - a).natAbs
  let line := choose_line total
  if total ≥ 6 then none
  else if diff ≤ 1 then some ("OVER", line, overNote)
  else some ("UNDER", line, underNote)

/-- `eval_result(final_total, bet_type, line)`. -/
def eval_result (final_total : ℤ) (bet_type : String) (line : ℚ) : String :=
  if bet_type = "OVER" then (if line < (final_total : ℚ) then "WIN" else "LOSE")
  else if bet_type = "UNDER" then (if (final_total : ℚ) < line then "WIN" else "LOSE")
  else "UNKNOWN"

/-- One entry of the 24h plan (the dict appended at source lines 269–276). -/
structure PlanEntry where
  fixture_id : ℤ
  start_iso : ℤ
  league : String
  country : String
  home : String
  away : String
deriving DecidableEq, Repr

/-- The body of the `for fx in fixtures` loop of `build_24h_plan`: the plan
entry kept for a fixture, or `none` when one of the `continue` guards fires
(wrong competition, unparseable kickoff, kickoff outside `[now, now+24h]`,
non-positive id). -/
def planEntryOf (now : ℤ) (fx : Fixture) : Option PlanEntry :=
  if ¬ is_target_competition fx then none
  else
    match parse_fixture_start_local fx with
    | none => none
    | some start =>
      if start < now then none
      else if start > now + 24 * 3600 then none
      else
        let fixture_id := safe_int fx.id 0
        if fixture_id ≤ 0 then none
        else some {
          fixture_id := fixture_id, start_iso := start,
          league := fx.league_name.getD "", country := fx.league_country.getD "",
          home := fx.home_name.getD "Home", away := fx.away_name.getD "Away" }

/-- The sort order of `plan.sort(key=lambda x: x["start_iso"])`: compare
kickoff instants.  All entries carry the same timezone offset, so the
ISO-string key of the source orders exactly like the instant. -/
abbrev planLE (e₁ e₂ : PlanEntry) : Prop := e₁.start_iso ≤ e₂.start_iso

instance : IsTotal PlanEntry planLE := ⟨fun a b => le_total a.start_iso b.start_iso⟩

instance : IsTrans PlanEntry planLE := ⟨fun _ _ _ h1 h2 => le_trans h1 h2⟩

/-- `build_24h_plan`: filter today's and tomorrow's fixtures (the
concatenated `fixtures` list) and sort ascending by kickoff.  Python's
`list.sort` is stable; `List.insertionSort` is the stable sort used to
model it. -/
def build_24h_plan (now : ℤ) (fixtures : List Fixture) : List PlanEntry :=
  List.insertionSort planLE (fixtures.filterMap (planEntryOf now))

/-- `is_any_match_active_now`: is `now` inside some plan entry's
`[kickoff + ACTIVE_FROM_MIN, kickoff + ACTIVE_TO_MIN]` window (minutes). -/
def is_any_match_active_now (now : ℤ) (plan : List PlanEntry) : Bool :=
  plan.any (fun p =>
    decide (p.start_iso + ACTIVE_FROM_MIN * 60 ≤ now) &&
    decide (now ≤ p.start_iso + ACTIVE_TO_MIN * 60))

/-- An open bet record (the dict stored at source lines 451–464). -/
structure OpenBet where
  bet_id : String
  time : ℤ
  fixture_id : ℤ
  league : String
  country : String
  home : String
  away : String
  minute : ℤ
  score : String
  bet_type : String
  line : ℚ
  notes : String
deriving DecidableEq, Repr

/-- The persisted process state (the `state` dict).  `plan_date` starts as
the empty string in the source, which never equals a real date; `none`
models that. -/
structure BotState where
  sent_per_match : List (ℤ × ℕ)
  open_bets : List (String × OpenBet)
  signals_today : ℕ
  signals_today_date : ℤ
  plan_date : Option ℤ
  plan : List PlanEntry
deriving DecidableEq, Repr

/-- `state["sent_per_match"].get(str(fixture_id), 0)` on the assoc-list
model of the dict. -/
def getSent : List (ℤ × ℕ) → ℤ → ℕ
  | [], _ => 0
  | (k, v) :: rest, key => if k = key then v else getSent rest key

/-- `state["sent_per_match"][str(fixture_id)] = v`: dict assignment
(update in place if the key exists, else append — Python dicts keep
insertion order). -/
def setSent : List (ℤ × ℕ) → ℤ → ℕ → List (ℤ × ℕ)
  | [], key, v => [(key, v)]
  | (k, v') :: rest, key, v =>
    if k = key then (key, v) :: rest else (k, v') :: setSent rest key v

/-- `state["open_bets"][bet_id] = bet`: dict assignment. -/
def insertBet : List (String × OpenBet) → String → OpenBet → List (String × OpenBet)
  | [], key, b => [(key, b)]
  | (k, b') :: rest, key, b =>
    if k = key then (key, b) :: rest else (k, b') :: insertBet rest key b

/-- Calendar date stamp of an instant (the `%Y-%m-%d` string of the source,
modelled as the floor-day number; only equality of stamps is ever used). -/
def dayOf (t : ℤ) : ℤ := t / 86400

/-- `reset_daily_if_needed`: on a date rollover, zero the daily counter and
update the stamp; nothing else changes. -/
def reset_daily_if_needed (today : ℤ) (s : BotState) : BotState :=
  if s.signals_today_date ≠ today then
    { s with signals_today_date := today, signals_today := 0 }
  else s

/-- The finished statuses of source line 361. -/
def finishedStatuses : List String := ["FT", "AET", "PEN"]

/-- One iteration of the `for bet_id, bet in state["open_bets"]` settlement
loop body: `some (bet_id, result)` when the re-fetched fixture is finished,
`none` when the fixture is unavailable or still running. -/
def settleBet (lookup : ℤ → Option Fixture) (kb : String × OpenBet) :
    Option (String × String) :=
  match lookup kb.2.fixture_id with
  | none => none
  | some fx =>
    if fx.status_short ∈ finishedStatuses then
      some (kb.1, eval_result (current_score fx).2.2 kb.2.bet_type kb.2.line)
    else none

/-- Step 2 of the main loop: settle every finished open bet, remove the
settled bets from the open set, and report the `(bet_id, result)` pairs
(the notification / CSV row of each). -/
def settleBets (lookup : ℤ → Option Fixture) (s : BotState) :
    BotState × List (String × String) :=
  let finished := s.open_bets.filterMap (settleBet lookup)
  let finishedIds := finished.map Prod.fst
  ({ s with open_bets := s.open_bets.filter (fun kb => ¬ kb.1 ∈ finishedIds) },
   finished)

/-- The `continue` guard chain of the live-scan loop body (source lines
416–437): `some (fixture_id, minute, bet_type, line, notes)` when every
guard passes and `pick_signal_basic` picks a signal, else `none`. -/
def signalFor (s : BotState) (planIds : List ℤ) (fx : Fixture) :
    Option (ℤ × ℤ × String × ℚ × String) :=
  if ¬ is_target_competition fx then none
  else
    let fixture_id := safe_int fx.id 0
    if fixture_id ≤ 0 then none
    else if fixture_id ∉ planIds then none
    else
      let minute := safe_int fx.status_elapsed 0
      if minute < MIN_MINUTE ∨ minute > MAX_MINUTE then none
      else if getSent s.sent_per_match fixture_id ≥ MAX_SIGNALS_PER_MATCH then none
      else
        match pick_signal_basic fx minute with
        | none => none
        | some (bet_type, line, notes) => some (fixture_id, minute, bet_type, line, notes)

/-- The effect of firing a signal (source lines 439–469): record the new
open bet, bump the per-fixture emission count and the daily counter. -/
def fireSignal (now : ℤ) (s : BotState) (fx : Fixture) (fixture_id minute : ℤ)
    (bet_type : String) (line : ℚ) (notes : String) : BotState :=
  let cs := current_score fx
  let sent_count := getSent s.sent_per_match fixture_id
  let bet_id := toString fixture_id ++ "-" ++ toString now
  let bet : OpenBet := {
    bet_id := bet_id, time := now, fixture_id := fixture_id,
    league := fx.league_name.getD "", country := fx.league_country.getD "",
    home := fx.home_name.getD "Home", away := fx.away_name.getD "Away",
    minute := minute, score := toString cs.1 ++ "-" ++ toString cs.2.1,
    bet_type := bet_type, line := line, notes := notes }
  { s with
    open_bets := insertBet s.open_bets bet_id bet,
    sent_per_match := setSent s.sent_per_match fixture_id (sent_count + 1),
    signals_today := s.signals_today + 1 }

/-- Step 6 of the main loop (`for fx in fixtures` over the live fixtures):
apply the per-fixture guards, fire a signal when the rule picks one, and
`break` as soon as the daily cap is reached.  Returns the new state and the
number of signals fired (`fired`). -/
def scanLive (now : ℤ) (planIds : List ℤ) : BotState → List Fixture → BotState × ℕ
  | s, [] => (s, 0)
  | s, fx :: rest =>
    match signalFor s planIds fx with
    | none => scanLive now planIds s rest
    | some (fixture_id, minute, bet_type, line, notes) =>
      let s' := fireSignal now s fx fixture_id minute bet_type line notes
      if s'.signals_today ≥ MAX_SIGNALS_PER_DAY then (s', 1)
      else
        let r := scanLive now planIds s' rest
        (r.1, r.2 + 1)

/-- The external world one iteration of the main loop observes: the current
instant, the date-query results feeding a plan rebuild, the live-fixture
poll, and the by-id lookup used by settlement. -/
structure Env where
  now : ℤ
  dateFixtures : List Fixture
  liveFixtures : List Fixture
  fixtureById : ℤ → Option Fixture

/-- What one iteration of the `while True` loop did: the successor state,
whether the plan was rebuilt, the settled `(bet_id, result)` pairs, and how
many signals fired. -/
structure TickResult where
  state : BotState
  rebuilt : Bool
  settled : List (String × String)
  fired : ℕ

/-- Step 1 of the main loop (source lines 341–349): rebuild the plan when
`state.get("plan_date") != today or not state.get("plan")` (an empty stored
plan is falsy, hence treated like an absent one); the `Bool` reports
whether a rebuild happened. -/
def planStep (env : Env) (s1 : BotState) : BotState × Bool :=
  if s1.plan_date ≠ some (dayOf env.now) ∨ s1.plan = [] then
    ({ s1 with plan := build_24h_plan env.now env.dateFixtures,
               plan_date := some (dayOf env.now) }, true)
  else (s1, false)

/-- Steps 3–6 of the main loop: the daily-cap gate, the no-plan and
inactive-window shortcuts (pure sleeps: state unchanged, nothing fired),
then the live scan.  The source reads `plan` from the state before
settlement; settlement never touches the plan, so `s3.plan` is that same
list. -/
def afterSettle (env : Env) (rebuilt : Bool) (settled : List (String × String))
    (s3 : BotState) : TickResult :=
  if s3.signals_today ≥ MAX_SIGNALS_PER_DAY then ⟨s3, rebuilt, settled, 0⟩
  else if s3.plan = [] then ⟨s3, rebuilt, settled, 0⟩
  else if ¬ is_any_match_active_now env.now s3.plan then ⟨s3, rebuilt, settled, 0⟩
  else
    let planIds := s3.plan.map (fun p => p.fixture_id)
    let r := scanLive env.now planIds s3 env.liveFixtures
    ⟨r.1, rebuilt, settled, r.2⟩

/-- One iteration of the `while True` loop (source lines 336–475): daily
reset, plan rebuild when stale or empty, settlement, then cap gate /
shortcuts / live scan. -/
def tick (env : Env) (s0 : BotState) : TickResult :=
  let s1 := reset_daily_if_needed (dayOf env.now) s0
  let sr := planStep env s1
  let sb := settleBets env.fixtureById sr.1
  afterSettle env sr.2 sb.2 sb.1

/-- A concrete in-play Premier League fixture with the given goal fields,
used to instantiate witness theorems. -/
def liveFx (gh ga : JField) : Fixture :=
  { id := JField.int 101, date := some 0, league_name := some "Premier League",
    league_country := some "England", home_name := some "Home",
    away_name := some "Away", goals_home := gh, goals_away := ga,
    status_short := "2H", status_elapsed := JField.int 80 }

/-- The empty starting state (`load_state` default with day stamp 0). -/
def emptyState : BotState :=
  { sent_per_match := [], open_bets := [], signals_today := 0,
    signals_today_date := 0, plan_date := none, plan := [] }

/-- A state whose fixture 101 already received its one signal today. -/
def sentState : BotState :=
  { sent_per_match := [(101, 1)], open_bets := [], signals_today := 1,
    signals_today_date := 0, plan_date := some 0, plan := [] }

/-- An environment with no fixtures at all, at instant 0. -/
def env0 : Env :=
  { now := 0, dateFixtures := [], liveFixtures := [], fixtureById := fun _ => none }

/-- A concrete plan entry for fixture 101 kicking off at instant 3600. -/
def pe0 : PlanEntry :=
  { fixture_id := 101, start_iso := 3600, league := "Premier League",
    country := "England", home := "Home", away := "Away" }

/-- A state holding today's one-entry plan, built at day stamp 0. -/
def planState : BotState :=
  { sent_per_match := [], open_bets := [], signals_today := 0,
    signals_today_date := 0, plan_date := some 0, plan := [pe0] }

lemma current_score_int (fx : Fixture) (h a : ℤ)
    (hh : fx.goals_home = JField.int h) (ha : fx.goals_away = JField.int a) :
    current_score fx = (h, a, h + a) := by
  simp [current_score, hh, ha, safe_int]

/-- **C1.** For a fixture whose goal fields read as `h` and `a` with
`total = h + a`: if `total ≥ 6` there is no signal; otherwise a goal
difference `≤ 1` yields OVER with line `total + 0.5` and a difference
`≥ 2` yields UNDER with line `total + 0.5`; and the result depends only on
the two goal counts (it is independent of the minute and of every other
fixture field). -/
theorem pick_signal_basic_rule (fx : Fixture) (h a : ℕ) (m : ℤ)
    (hh : fx.goals_home = JField.int (h : ℤ))
    (ha : fx.goals_away = JField.int (a : ℤ)) :
    (6 ≤ h + a → pick_signal_basic fx m = none) ∧
    (h + a < 6 → ((h : ℤ) - (a : ℤ)).natAbs ≤ 1 →
      pick_signal_basic fx m = some ("OVER", ((h + a : ℕ) : ℚ) + 1/2, overNote)) ∧
    (h + a < 6 → 2 ≤ ((h : ℤ) - (a : ℤ)).natAbs →
      pick_signal_basic fx m = some ("UNDER", ((h + a : ℕ) : ℚ) + 1/2, underNote)) ∧
    (∀ (fx' : Fixture) (m' : ℤ), fx'.goals_home = fx.goals_home →
      fx'.goals_away = fx.goals_away →
      pick_signal_basic fx' m' = pick_signal_basic fx m) := by
  have hsc := current_score_int fx h a hh ha
  refine ⟨fun h6 => ?_, fun h6 hd => ?_, fun h6 hd => ?_, fun fx' m' hh' ha' => ?_⟩
  · have hc : ((h : ℤ) + (a : ℤ) ≥ 6) := by omega
    simp [pick_signal_basic, hsc, hc]
  · have hc : ¬ ((h : ℤ) + (a : ℤ) ≥ 6) := by omega
    simp [pick_signal_basic, hsc, hc, hd, choose_line]
  · have hc : ¬ ((h : ℤ) + (a : ℤ) ≥ 6) := by omega
    have hd' : ¬ (((h : ℤ) - (a : ℤ)).natAbs ≤ 1) := by omega
    simp [pick_signal_basic, hsc, hc, hd', choose_line]
  · have : current_score fx' = current_score fx := by
      simp [current_score, hh', ha']
    simp [pick_signal_basic, this]

/-- Witness for C1 at the concrete score 1–1 in minute 80. -/
theorem pick_signal_basic_rule_witness :
    pick_signal_basic (liveFx (JField.int 1) (JField.int 1)) 80
      = some ("OVER", ((1 + 1 : ℕ) : ℚ) + 1/2, overNote) :=
  (pick_signal_basic_rule (liveFx (JField.int 1) (JField.int 1)) 1 1 80 rfl rfl).2.1
    (by decide) (by decide)

/-- **C2.** Settlement of a final total (a natural number) against a bet:
OVER wins iff the total exceeds the line, UNDER wins iff the total is below
the line, each loses otherwise, UNKNOWN exactly for any other bet type, and
a natural-number total never equals a half-integer line `t + 0.5`, so no
push case exists. -/
theorem eval_result_rule (final : ℕ) (bt : String) (line : ℚ) :
    (eval_result (final : ℤ) "OVER" line = "WIN" ↔ line < (final : ℚ)) ∧
    (eval_result (final : ℤ) "OVER" line = "LOSE" ↔ ¬ line < (final : ℚ)) ∧
    (eval_result (final : ℤ) "UNDER" line = "WIN" ↔ (final : ℚ) < line) ∧
    (eval_result (final : ℤ) "UNDER" line = "LOSE" ↔ ¬ (final : ℚ) < line) ∧
    (eval_result (final : ℤ) bt line = "UNKNOWN" ↔ bt ≠ "OVER" ∧ bt ≠ "UNDER") ∧
    (∀ t : ℤ, (final : ℚ) ≠ choose_line t) := by
  have hc : (((final : ℕ) : ℤ) : ℚ) = (final : ℚ) := by push_cast; ring
  refine ⟨?_, ?_, ?_, ?_, ?_, ?_⟩
  · simp [eval_result, hc]
  · simp [eval_result, hc]
  · simp [eval_result, hc]
  · simp [eval_result, hc]
  · by_cases h1 : bt = "OVER"
    · simp [eval_result, hc, h1]
      split_ifs <;> simp
    · by_cases h2 : bt = "UNDER"
      · simp [eval_result, hc, h1, h2]
        split_ifs <;> simp
      · simp [eval_result, hc, h1, h2]
  · intro t heq
    rw [choose_line] at heq
    have h2 : ((2 * final : ℕ) : ℚ) = 2 * (t : ℚ) + 1 := by
      push_cast
      linarith
    have h3 : ((2 * final : ℕ) : ℤ) = 2 * t + 1 := by exact_mod_cast h2
    omega

/-- Witness for C2: OVER at line 2.5 with final total 3 wins. -/
theorem eval_result_rule_witness :
    eval_result ((3 : ℕ) : ℤ) "OVER" (choose_line 2) = "WIN" :=
  (eval_result_rule 3 "OVER" (choose_line 2)).1.mpr (by norm_num [choose_line])

/-- **C10.** A goal field that is missing, null or non-numeric is read as 0
by `current_score` (per side, and `safe_int` is total, so nothing is
raised); with both sides unreadable the score is 0–0, and the live record
then yields an OVER signal with line 0.5 instead of being skipped. -/
theorem current_score_default (fx : Fixture) (m : ℤ) :
    (fx.goals_home = JField.missing ∨ fx.goals_home = JField.null ∨
        fx.goals_home = JField.nonNumeric → (current_score fx).1 = 0) ∧
    (fx.goals_away = JField.missing ∨ fx.goals_away = JField.null ∨
        fx.goals_away = JField.nonNumeric → (current_score fx).2.1 = 0) ∧
    ((fx.goals_home = JField.missing ∨ fx.goals_home = JField.null ∨
        fx.goals_home = JField.nonNumeric) →
     (fx.goals_away = JField.missing ∨ fx.goals_away = JField.null ∨
        fx.goals_away = JField.nonNumeric) →
      current_score fx = (0, 0, 0) ∧
      pick_signal_basic fx m = some ("OVER", (1/2 : ℚ), overNote)) := by
  refine ⟨fun hh => ?_, fun ha => ?_, fun hh ha => ?_⟩
  · rcases hh with h | h | h <;> simp [current_score, safe_int, h]
  · rcases ha with h | h | h <;> simp [current_score, safe_int, h]
  · have hz : current_score fx = (0, 0, 0) := by
      rcases hh with h | h | h <;> rcases ha with h' | h' | h' <;>
        simp [current_score, safe_int, h, h']
    refine ⟨hz, ?_⟩
    simp [pick_signal_basic, hz, choose_line]

/-- Witness for C10: both goal fields unreadable gives OVER 0.5. -/
theorem current_score_default_witness :
    pick_signal_basic (liveFx JField.missing JField.null) 80
      = some ("OVER", (1/2 : ℚ), overNote) :=
  ((current_score_default (liveFx JField.missing JField.null) 80).2.2
    (Or.inl rfl) (Or.inr (Or.inl rfl))).2


lemma getSent_setSent_self (l : List (ℤ × ℕ)) (k : ℤ) (v : ℕ) :
    getSent (setSent l k v) k = v := by
  induction l with
  | nil => simp [setSent, getSent]
  | cons p rest ih =>
    obtain ⟨k', v'⟩ := p
    by_cases h : k' = k <;> simp [setSent, getSent, h, ih]

lemma getSent_setSent_ne (l : List (ℤ × ℕ)) (k k' : ℤ) (v : ℕ) (h : k ≠ k') :
    getSent (setSent l k v) k' = getSent l k' := by
  induction l with
  | nil => simp [setSent, getSent, h]
  | cons p rest ih =>
    obtain ⟨k'', v''⟩ := p
    by_cases h2 : k'' = k
    · simp [setSent, getSent, h, h2]
    · simp [setSent, getSent, h2, ih]

lemma mem_insertBet {l : List (String × OpenBet)} {k : String} {b : OpenBet}
    {kb : String × OpenBet} (h : kb ∈ insertBet l k b) : kb = (k, b) ∨ kb ∈ l := by
  induction l with
  | nil => simpa [insertBet] using h
  | cons p rest ih =>
    obtain ⟨k', b'⟩ := p
    by_cases h2 : k' = k
    · simp only [insertBet, if_pos h2] at h
      rcases List.mem_cons.mp h with h3 | h3
      · exact Or.inl h3
      · exact Or.inr (List.mem_cons_of_mem _ h3)
    · simp only [insertBet, if_neg h2] at h
      rcases List.mem_cons.mp h with h3 | h3
      · exact Or.inr (h3 ▸ List.mem_cons_self _ _)
      · rcases ih h3 with h4 | h4
        · exact Or.inl h4
        · exact Or.inr (List.mem_cons_of_mem _ h4)

lemma fireSignal_signals (now : ℤ) (s : BotState) (fx : Fixture)
    (fid minute : ℤ) (bt : String) (line : ℚ) (notes : String) :
    (fireSignal now s fx fid minute bt line notes).signals_today
      = s.signals_today + 1 := rfl

lemma fireSignal_plan (now : ℤ) (s : BotState) (fx : Fixture)
    (fid minute : ℤ) (bt : String) (line : ℚ) (notes : String) :
    (fireSignal now s fx fid minute bt line notes).plan = s.plan := rfl

lemma fireSignal_plan_date (now : ℤ) (s : BotState) (fx : Fixture)
    (fid minute : ℤ) (bt : String) (line : ℚ) (notes : String) :
    (fireSignal now s fx fid minute bt line notes).plan_date = s.plan_date := rfl

lemma fireSignal_date (now : ℤ) (s : BotState) (fx : Fixture)
    (fid minute : ℤ) (bt : String) (line : ℚ) (notes : String) :
    (fireSignal now s fx fid minute bt line notes).signals_today_date
      = s.signals_today_date := rfl

lemma fireSignal_getSent (now : ℤ) (s : BotState) (fx : Fixture)
    (fid minute : ℤ) (bt : String) (line : ℚ) (notes : String) (k : ℤ) :
    getSent (fireSignal now s fx fid minute bt line notes).sent_per_match k
      = if fid = k then getSent s.sent_per_match k + 1
        else getSent s.sent_per_match k := by
  by_cases h : fid = k
  · subst h
    simp [fireSignal, getSent_setSent_self]
  · simp [fireSignal, h, getSent_setSent_ne _ _ _ _ h]

lemma fireSignal_mem_open (now : ℤ) (s : BotState) (fx : Fixture)
    (fid minute : ℤ) (bt : String) (line : ℚ) (notes : String)
    {kb : String × OpenBet}
    (h : kb ∈ (fireSignal now s fx fid minute bt line notes).open_bets) :
    kb.2.fixture_id = fid ∨ kb ∈ s.open_bets := by
  simp only [fireSignal] at h
  rcases mem_insertBet h with h1 | h1
  · left
    rw [h1]
  · right
    exact h1

lemma signalFor_sent_lt {s : BotState} {ids : List ℤ} {fx : Fixture}
    {fid minute : ℤ} {bt : String} {line : ℚ} {notes : String}
    (h : signalFor s ids fx = some (fid, minute, bt, line, notes)) :
    getSent s.sent_per_match fid < MAX_SIGNALS_PER_MATCH := by
  simp only [signalFor] at h
  split_ifs at h with h1 h2 h3 h4 h5
  cases hp : pick_signal_basic fx (safe_int fx.status_elapsed 0) with
  | none => rw [hp] at h; simp at h
  | some v =>
    obtain ⟨bt', line', notes'⟩ := v
    rw [hp] at h
    simp only [Option.some.injEq, Prod.mk.injEq] at h
    obtain ⟨hid, -⟩ := h
    rw [hid] at h5
    omega

lemma scanLive_cons (now : ℤ) (ids : List ℤ) (s : BotState) (fx : Fixture)
    (rest : List Fixture) :
    scanLive now ids s (fx :: rest) =
      match signalFor s ids fx with
      | none => scanLive now ids s rest
      | some (fid, minute, bt, line, notes) =>
        let s' := fireSignal now s fx fid minute bt line notes
        if s'.signals_today ≥ MAX_SIGNALS_PER_DAY then (s', 1)
        else ((scanLive now ids s' rest).1, (scanLive now ids s' rest).2 + 1) := rfl

lemma scanLive_state (now : ℤ) (ids : List ℤ) (fxs : List Fixture) :
    ∀ s : BotState,
      (scanLive now ids s fxs).1.signals_today
          = s.signals_today + (scanLive now ids s fxs).2 ∧
      (scanLive now ids s fxs).1.plan = s.plan ∧
      (scanLive now ids s fxs).1.plan_date = s.plan_date ∧
      (scanLive now ids s fxs).1.signals_today_date = s.signals_today_date := by
  induction fxs with
  | nil => intro s; simp [scanLive]
  | cons fx rest ih =>
    intro s
    rw [scanLive_cons]
    cases hsf : signalFor s ids fx with
    | none => simpa using ih s
    | some q =>
      obtain ⟨fid, minute, bt, line, notes⟩ := q
      dsimp only
      by_cases hcap :
          (fireSignal now s fx fid minute bt line notes).signals_today
            ≥ MAX_SIGNALS_PER_DAY
      · rw [if_pos hcap]
        exact ⟨rfl, rfl, rfl, rfl⟩
      · rw [if_neg hcap]
        obtain ⟨ih1, ih2, ih3, ih4⟩ := ih (fireSignal now s fx fid minute bt line notes)
        refine ⟨?_, ?_, ?_, ?_⟩
        · rw [ih1, fireSignal_signals]
          omega
        · rw [ih2, fireSignal_plan]
        · rw [ih3, fireSignal_plan_date]
        · rw [ih4, fireSignal_date]

lemma scanLive_cap (now : ℤ) (ids : List ℤ) (fxs : List Fixture) :
    ∀ s : BotState, s.signals_today < MAX_SIGNALS_PER_DAY →
      (scanLive now ids s fxs).1.signals_today ≤ MAX_SIGNALS_PER_DAY := by
  induction fxs with
  | nil => intro s h; simp [scanLive]; omega
  | cons fx rest ih =>
    intro s h
    rw [scanLive_cons]
    cases hsf : signalFor s ids fx with
    | none => exact ih s h
    | some q =>
      obtain ⟨fid, minute, bt, line, notes⟩ := q
      dsimp only
      by_cases hcap :
          (fireSignal now s fx fid minute bt line notes).signals_today
            ≥ MAX_SIGNALS_PER_DAY
      · rw [if_pos hcap]
        rw [fireSignal_signals]
        omega
      · rw [if_neg hcap]
        exact ih _ (by omega)

lemma scanLive_sent_mono (now : ℤ) (ids : List ℤ) (fxs : List Fixture) (k : ℤ) :
    ∀ s : BotState,
      getSent s.sent_per_match k
        ≤ getSent (scanLive now ids s fxs).1.sent_per_match k := by
  induction fxs with
  | nil => intro s; simp [scanLive]
  | cons fx rest ih =>
    intro s
    rw [scanLive_cons]
    cases hsf : signalFor s ids fx with
    | none => exact ih s
    | some q =>
      obtain ⟨fid, minute, bt, line, notes⟩ := q
      dsimp only
      have hstep : getSent s.sent_per_match k
          ≤ getSent (fireSignal now s fx fid minute bt line notes).sent_per_match k := by
        rw [fireSignal_getSent]
        split_ifs <;> omega
      by_cases hcap :
          (fireSignal now s fx fid minute bt line notes).signals_today
            ≥ MAX_SIGNALS_PER_DAY
      · rw [if_pos hcap]
        exact hstep
      · rw [if_neg hcap]
        exact hstep.trans (ih _)

lemma scanLive_capped_fixture (now : ℤ) (ids : List ℤ) (fxs : List Fixture) (k : ℤ) :
    ∀ s : BotState, MAX_SIGNALS_PER_MATCH ≤ getSent s.sent_per_match k →
      getSent (scanLive now ids s fxs).1.sent_per_match k
          = getSent s.sent_per_match k ∧
      ∀ kb ∈ (scanLive now ids s fxs).1.open_bets,
        kb.2.fixture_id = k → kb ∈ s.open_bets := by
  induction fxs with
  | nil =>
    intro s h
    refine ⟨rfl, fun kb hm _ => hm⟩
  | cons fx rest ih =>
    intro s h
    rw [scanLive_cons]
    cases hsf : signalFor s ids fx with
    | none => exact ih s h
    | some q =>
      obtain ⟨fid, minute, bt, line, notes⟩ := q
      dsimp only
      have hne : fid ≠ k := by
        intro he
        have := signalFor_sent_lt hsf
        rw [he] at this
        omega
      have hsent : getSent (fireSignal now s fx fid minute bt line notes).sent_per_match k
          = getSent s.sent_per_match k := by
        rw [fireSignal_getSent, if_neg hne]
      by_cases hcap :
          (fireSignal now s fx fid minute bt line notes).signals_today
            ≥ MAX_SIGNALS_PER_DAY
      · rw [if_pos hcap]
        refine ⟨hsent, fun kb hm hf => ?_⟩
        rcases fireSignal_mem_open now s fx fid minute bt line notes hm with h1 | h1
        · exact absurd (h1.symm.trans hf) hne
        · exact h1
      · rw [if_neg hcap]
        obtain ⟨ih1, ih2⟩ := ih _ (hsent ▸ h)
        refine ⟨ih1.trans hsent, fun kb hm hf => ?_⟩
        rcases fireSignal_mem_open now s fx fid minute bt line notes (ih2 kb hm hf) with h1 | h1
        · exact absurd (h1.symm.trans hf) hne
        · exact h1

lemma reset_fields (d : ℤ) (s : BotState) :
    (reset_daily_if_needed d s).sent_per_match = s.sent_per_match ∧
    (reset_daily_if_needed d s).open_bets = s.open_bets ∧
    (reset_daily_if_needed d s).plan_date = s.plan_date ∧
    (reset_daily_if_needed d s).plan = s.plan := by
  unfold reset_daily_if_needed
  split_ifs <;> exact ⟨rfl, rfl, rfl, rfl⟩

lemma reset_signals_le (d : ℤ) (s : BotState) :
    (reset_daily_if_needed d s).signals_today ≤ s.signals_today := by
  unfold reset_daily_if_needed
  split_ifs <;> simp

lemma planStep_fields (env : Env) (s1 : BotState) :
    (planStep env s1).1.sent_per_match = s1.sent_per_match ∧
    (planStep env s1).1.open_bets = s1.open_bets ∧
    (planStep env s1).1.signals_today = s1.signals_today ∧
    (planStep env s1).1.signals_today_date = s1.signals_today_date := by
  unfold planStep
  split_ifs <;> exact ⟨rfl, rfl, rfl, rfl⟩

lemma planStep_rebuilt (env : Env) (s1 : BotState) :
    (planStep env s1).2 = true ↔
      (s1.plan_date ≠ some (dayOf env.now) ∨ s1.plan = []) := by
  unfold planStep
  split_ifs with h <;> simp [h]

lemma planStep_of_fresh (env : Env) (s1 : BotState)
    (h1 : s1.plan_date = some (dayOf env.now)) (h2 : s1.plan ≠ []) :
    planStep env s1 = (s1, false) := by
  unfold planStep
  rw [if_neg]
  simp [h1, h2]

lemma settleBets_sent (lookup : ℤ → Option Fixture) (s : BotState) :
    (settleBets lookup s).1.sent_per_match = s.sent_per_match := rfl

lemma settleBets_signals (lookup : ℤ → Option Fixture) (s : BotState) :
    (settleBets lookup s).1.signals_today = s.signals_today := rfl

lemma settleBets_plan (lookup : ℤ → Option Fixture) (s : BotState) :
    (settleBets lookup s).1.plan = s.plan := rfl

lemma settleBets_plan_date (lookup : ℤ → Option Fixture) (s : BotState) :
    (settleBets lookup s).1.plan_date = s.plan_date := rfl

lemma settleBets_date (lookup : ℤ → Option Fixture) (s : BotState) :
    (settleBets lookup s).1.signals_today_date = s.signals_today_date := rfl

lemma settleBets_open_mem (lookup : ℤ → Option Fixture) (s : BotState)
    {kb : String × OpenBet} (h : kb ∈ (settleBets lookup s).1.open_bets) :
    kb ∈ s.open_bets := by
  simp only [settleBets] at h
  exact (List.mem_filter.mp h).1

lemma afterSettle_rebuilt (env : Env) (rb : Bool)
    (st : List (String × String)) (s3 : BotState) :
    (afterSettle env rb st s3).rebuilt = rb := by
  unfold afterSettle
  split_ifs <;> rfl

lemma afterSettle_signals (env : Env) (rb : Bool)
    (st : List (String × String)) (s3 : BotState) :
    (afterSettle env rb st s3).state.signals_today
      = s3.signals_today + (afterSettle env rb st s3).fired := by
  unfold afterSettle
  split_ifs <;> simp
  exact (scanLive_state _ _ _ s3).1

lemma afterSettle_fired_zero (env : Env) (rb : Bool)
    (st : List (String × String)) (s3 : BotState)
    (h : MAX_SIGNALS_PER_DAY ≤ s3.signals_today) :
    (afterSettle env rb st s3).fired = 0 := by
  unfold afterSettle
  rw [if_pos h]

lemma afterSettle_cap_le (env : Env) (rb : Bool)
    (st : List (String × String)) (s3 : BotState)
    (h : s3.signals_today ≤ MAX_SIGNALS_PER_DAY) :
    (afterSettle env rb st s3).state.signals_today ≤ MAX_SIGNALS_PER_DAY := by
  unfold afterSettle
  split_ifs with h1 h2 h3
  · exact h
  · exact h
  · dsimp only
    exact scanLive_cap _ _ _ s3 (by omega)
  · exact h

lemma afterSettle_sent_mono (env : Env) (rb : Bool)
    (st : List (String × String)) (s3 : BotState) (k : ℤ) :
    getSent s3.sent_per_match k
      ≤ getSent (afterSettle env rb st s3).state.sent_per_match k := by
  unfold afterSettle
  split_ifs <;> simp
  exact scanLive_sent_mono _ _ _ k s3

lemma afterSettle_capped (env : Env) (rb : Bool)
    (st : List (String × String)) (s3 : BotState) (k : ℤ)
    (h : MAX_SIGNALS_PER_MATCH ≤ getSent s3.sent_per_match k) :
    getSent (afterSettle env rb st s3).state.sent_per_match k
        = getSent s3.sent_per_match k ∧
    ∀ kb ∈ (afterSettle env rb st s3).state.open_bets,
      kb.2.fixture_id = k → kb ∈ s3.open_bets := by
  unfold afterSettle
  split_ifs
  · exact ⟨rfl, fun kb hm _ => hm⟩
  · exact ⟨rfl, fun kb hm _ => hm⟩
  · dsimp only
    exact scanLive_capped_fixture _ _ _ k s3 h
  · exact ⟨rfl, fun kb hm _ => hm⟩

lemma afterSettle_plan (env : Env) (rb : Bool)
    (st : List (String × String)) (s3 : BotState) :
    (afterSettle env rb st s3).state.plan = s3.plan := by
  unfold afterSettle
  split_ifs <;> simp
  exact (scanLive_state _ _ _ s3).2.1

lemma tick_cap_le (env : Env) (s : BotState)
    (h : s.signals_today ≤ MAX_SIGNALS_PER_DAY) :
    (tick env s).state.signals_today ≤ MAX_SIGNALS_PER_DAY := by
  have htick : tick env s
      = afterSettle env
          (planStep env (reset_daily_if_needed (dayOf env.now) s)).2
          (settleBets env.fixtureById
            (planStep env (reset_daily_if_needed (dayOf env.now) s)).1).2
          (settleBets env.fixtureById
            (planStep env (reset_daily_if_needed (dayOf env.now) s)).1).1 := rfl
  rw [htick]
  apply afterSettle_cap_le
  rw [settleBets_signals, (planStep_fields env _).2.2.1]
  exact le_trans (reset_signals_le _ _) h

lemma tickSeq_cap_le (envs : List Env) :
    ∀ s : BotState, s.signals_today ≤ MAX_SIGNALS_PER_DAY →
      (envs.foldl (fun st e => (tick e st).state) s).signals_today
        ≤ MAX_SIGNALS_PER_DAY := by
  induction envs with
  | nil => exact fun s h => h
  | cons e rest ih => exact fun s h => ih _ (tick_cap_le e s h)

/-- **C3.** Within a day the daily counter grows by exactly one per emitted
signal (`fired` is the exact increment of `signals_today` over a tick), a
tick whose post-reset counter is already at `MAX_SIGNALS_PER_DAY` fires
nothing (the main loop skips signal evaluation entirely), the counter never
exceeds the cap — also along any sequence of ticks, which bounds the
signals of a day at 25 — and the live scan keeps the counter at or below
the cap even when it reaches it mid-scan (it stops immediately). -/
theorem daily_cap_spec (env : Env) (s : BotState) :
    ((tick env s).state.signals_today
        = (reset_daily_if_needed (dayOf env.now) s).signals_today
          + (tick env s).fired) ∧
    (MAX_SIGNALS_PER_DAY ≤ (reset_daily_if_needed (dayOf env.now) s).signals_today →
        (tick env s).fired = 0) ∧
    (s.signals_today ≤ MAX_SIGNALS_PER_DAY →
        (tick env s).state.signals_today ≤ MAX_SIGNALS_PER_DAY) ∧
    (s.signals_today ≤ MAX_SIGNALS_PER_DAY → ∀ envs : List Env,
        (envs.foldl (fun st e => (tick e st).state) s).signals_today
          ≤ MAX_SIGNALS_PER_DAY) ∧
    (∀ (now : ℤ) (ids : List ℤ) (st : BotState) (fxs : List Fixture),
        st.signals_today < MAX_SIGNALS_PER_DAY →
        (scanLive now ids st fxs).1.signals_today ≤ MAX_SIGNALS_PER_DAY) := by
  have htick : tick env s
      = afterSettle env
          (planStep env (reset_daily_if_needed (dayOf env.now) s)).2
          (settleBets env.fixtureById
            (planStep env (reset_daily_if_needed (dayOf env.now) s)).1).2
          (settleBets env.fixtureById
            (planStep env (reset_daily_if_needed (dayOf env.now) s)).1).1 := rfl
  have hsig : (settleBets env.fixtureById
        (planStep env (reset_daily_if_needed (dayOf env.now) s)).1).1.signals_today
      = (reset_daily_if_needed (dayOf env.now) s).signals_today := by
    rw [settleBets_signals]
    exact (planStep_fields env _).2.2.1
  refine ⟨?_, ?_, ?_, ?_, ?_⟩
  · rw [htick, afterSettle_signals, hsig]
  · intro h
    rw [htick]
    exact afterSettle_fired_zero _ _ _ _ (by rw [hsig]; exact h)
  · exact fun h => tick_cap_le env s h
  · exact fun h envs => tickSeq_cap_le envs s h
  · exact fun now ids st fxs h => scanLive_cap now ids fxs st h

/-- Witness for C3: one tick from the fresh state stays within the cap. -/
theorem daily_cap_spec_witness :
    (tick env0 emptyState).state.signals_today ≤ MAX_SIGNALS_PER_DAY :=
  (daily_cap_spec env0 emptyState).2.2.1 (by decide)


/-- **C4.** Once a fixture's entry in `sent_per_match` has reached
`MAX_SIGNALS_PER_MATCH`, every later evaluation of the Signal Engine for
that fixture emits nothing: its guard chain returns `none`, a whole live
scan leaves the fixture's emission count unchanged, and no open bet for
that fixture is added. -/
theorem per_match_cap_spec (now : ℤ) (ids : List ℤ) (fxs : List Fixture)
    (s : BotState) (fid : ℤ)
    (h : MAX_SIGNALS_PER_MATCH ≤ getSent s.sent_per_match fid) :
    (∀ fx : Fixture, safe_int fx.id 0 = fid → signalFor s ids fx = none) ∧
    getSent (scanLive now ids s fxs).1.sent_per_match fid
        = getSent s.sent_per_match fid ∧
    (∀ kb ∈ (scanLive now ids s fxs).1.open_bets,
      kb.2.fixture_id = fid → kb ∈ s.open_bets) := by
  refine ⟨fun fx hid => ?_, scanLive_capped_fixture now ids fxs fid s h⟩
  simp only [signalFor]
  split_ifs with h1 h2 h3 h4 h5 <;> try rfl
  exact (h5 (by rw [hid]; exact h)).elim

/-- Witness for C4: with fixture 101 already signalled, a scan over a live
1–1 fixture 101 does not change its emission count. -/
theorem per_match_cap_spec_witness :
    getSent (scanLive 0 [101] sentState
        [liveFx (JField.int 1) (JField.int 1)]).1.sent_per_match 101
      = getSent sentState.sent_per_match 101 :=
  (per_match_cap_spec 0 [101] [liveFx (JField.int 1) (JField.int 1)]
    sentState 101 (by decide)).2.1

/-- **C9.** `reset_daily_if_needed` changes only `signals_today` and
`signals_today_date` — `sent_per_match`, `open_bets`, `plan_date` and
`plan` persist across day rollovers; over a whole tick a fixture's emission
count never decreases; and once it has reached the per-match cap a tick
leaves it unchanged and opens no new bet for that fixture, so a fixture
signalled on one day can never receive a signal on a later day of the same
process state. -/
theorem sent_per_match_persists (env : Env) (s : BotState) (d fid : ℤ) :
    ((reset_daily_if_needed d s).sent_per_match = s.sent_per_match ∧
     (reset_daily_if_needed d s).open_bets = s.open_bets ∧
     (reset_daily_if_needed d s).plan_date = s.plan_date ∧
     (reset_daily_if_needed d s).plan = s.plan) ∧
    (getSent s.sent_per_match fid
        ≤ getSent (tick env s).state.sent_per_match fid) ∧
    (MAX_SIGNALS_PER_MATCH ≤ getSent s.sent_per_match fid →
      getSent (tick env s).state.sent_per_match fid
          = getSent s.sent_per_match fid ∧
      ∀ kb ∈ (tick env s).state.open_bets,
        kb.2.fixture_id = fid → kb ∈ s.open_bets) := by
  have htick : tick env s
      = afterSettle env
          (planStep env (reset_daily_if_needed (dayOf env.now) s)).2
          (settleBets env.fixtureById
            (planStep env (reset_daily_if_needed (dayOf env.now) s)).1).2
          (settleBets env.fixtureById
            (planStep env (reset_daily_if_needed (dayOf env.now) s)).1).1 := rfl
  have hsent3 : (settleBets env.fixtureById
        (planStep env (reset_daily_if_needed (dayOf env.now) s)).1).1.sent_per_match
      = s.sent_per_match := by
    rw [settleBets_sent, (planStep_fields env _).1]
    exact (reset_fields _ _).1
  have hopen12 : (planStep env (reset_daily_if_needed (dayOf env.now) s)).1.open_bets
      = s.open_bets := by
    rw [(planStep_fields env _).2.1]
    exact (reset_fields _ _).2.1
  refine ⟨reset_fields d s, ?_, fun hcap => ?_⟩
  · rw [htick]
    have hm := afterSettle_sent_mono env
      (planStep env (reset_daily_if_needed (dayOf env.now) s)).2
      (settleBets env.fixtureById
        (planStep env (reset_daily_if_needed (dayOf env.now) s)).1).2
      (settleBets env.fixtureById
        (planStep env (reset_daily_if_needed (dayOf env.now) s)).1).1 fid
    rw [hsent3] at hm
    exact hm
  · obtain ⟨h1, h2⟩ := afterSettle_capped env
      (planStep env (reset_daily_if_needed (dayOf env.now) s)).2
      (settleBets env.fixtureById
        (planStep env (reset_daily_if_needed (dayOf env.now) s)).1).2
      (settleBets env.fixtureById
        (planStep env (reset_daily_if_needed (dayOf env.now) s)).1).1 fid
      (by rw [hsent3]; exact hcap)
    refine ⟨by rw [htick, h1, hsent3], fun kb hm hf => ?_⟩
    rw [htick] at hm
    have h3 := settleBets_open_mem env.fixtureById _ (h2 kb hm hf)
    rw [hopen12] at h3
    exact h3

/-- Witness for C9: with fixture 101 already signalled, a tick leaves its
emission count unchanged. -/
theorem sent_per_match_persists_witness :
    getSent (tick env0 sentState).state.sent_per_match 101
      = getSent sentState.sent_per_match 101 :=
  ((sent_per_match_persists env0 sentState 1 101).2.2 (by decide)).1

/-- **C5.** A tick rebuilds the plan exactly when the stored `plan_date`
differs from today's stamp or the stored plan is empty (the source's
`not state.get("plan")` treats an empty stored plan as absent); whenever
`plan_date` equals today and a non-empty plan is stored, no rebuild happens
and the plan is unchanged. -/
theorem plan_rebuild_spec (env : Env) (s : BotState) :
    ((tick env s).rebuilt = true ↔
        (s.plan_date ≠ some (dayOf env.now) ∨ s.plan = [])) ∧
    (s.plan_date = some (dayOf env.now) → s.plan ≠ [] →
      (tick env s).rebuilt = false ∧ (tick env s).state.plan = s.plan) := by
  have htick : tick env s
      = afterSettle env
          (planStep env (reset_daily_if_needed (dayOf env.now) s)).2
          (settleBets env.fixtureById
            (planStep env (reset_daily_if_needed (dayOf env.now) s)).1).2
          (settleBets env.fixtureById
            (planStep env (reset_daily_if_needed (dayOf env.now) s)).1).1 := rfl
  have hres := reset_fields (dayOf env.now) s
  constructor
  · rw [htick, afterSettle_rebuilt, planStep_rebuilt, hres.2.2.1, hres.2.2.2]
  · intro h1 h2
    have hps : planStep env (reset_daily_if_needed (dayOf env.now) s)
        = (reset_daily_if_needed (dayOf env.now) s, false) :=
      planStep_of_fresh env _ (by rw [hres.2.2.1]; exact h1)
        (by rw [hres.2.2.2]; exact h2)
    constructor
    · rw [htick, afterSettle_rebuilt, hps]
    · rw [htick, afterSettle_plan, settleBets_plan, hps]
      exact hres.2.2.2

/-- Witness for C5: a state with today's non-empty plan is not rebuilt. -/
theorem plan_rebuild_spec_witness :
    (tick env0 planState).rebuilt = false :=
  ((plan_rebuild_spec env0 planState).2 (by decide) (by decide)).1

lemma filter_orderedInsert_key (k : ℤ) (a : PlanEntry) (l : List PlanEntry) :
    (List.orderedInsert planLE a l).filter (fun e => decide (e.start_iso = k))
      = if a.start_iso = k then
          a :: l.filter (fun e => decide (e.start_iso = k))
        else l.filter (fun e => decide (e.start_iso = k)) := by
  induction l with
  | nil => split_ifs with hk <;> simp [List.orderedInsert, hk]
  | cons b t ih =>
    by_cases hle : planLE a b
    · rw [List.orderedInsert, if_pos hle]
      split_ifs with hk <;> simp [List.filter_cons, hk]
    · rw [List.orderedInsert, if_neg hle]
      have hba : b.start_iso < a.start_iso := by
        simp only [planLE, not_le] at hle
        exact hle
      split_ifs with hk
      · have hbk : ¬ (b.start_iso = k) := by omega
        simp [List.filter_cons, hbk, ih, hk]
      · by_cases hbk : b.start_iso = k
        · simp [List.filter_cons, hbk, ih, hk]
        · simp [List.filter_cons, hbk, ih, hk]

lemma filter_insertionSort_key (k : ℤ) (l : List PlanEntry) :
    (List.insertionSort planLE l).filter (fun e => decide (e.start_iso = k))
      = l.filter (fun e => decide (e.start_iso = k)) := by
  induction l with
  | nil => rfl
  | cons a t ih =>
    rw [List.insertionSort, filter_orderedInsert_key, ih]
    split_ifs with hk <;> simp [List.filter_cons, hk]

/-- **C7.** The plan is sorted ascending by kickoff: every adjacent pair is
ordered, and the sort is stable — for each kickoff instant, the entries
with that kickoff appear in the same order as in the unsorted filtered
input. -/
theorem plan_sorted_spec (now : ℤ) (fxs : List Fixture) :
    List.Chain' (fun e₁ e₂ : PlanEntry => e₁.start_iso ≤ e₂.start_iso)
      (build_24h_plan now fxs) ∧
    ∀ k : ℤ, (build_24h_plan now fxs).filter (fun e => decide (e.start_iso = k))
        = (fxs.filterMap (planEntryOf now)).filter
            (fun e => decide (e.start_iso = k)) := by
  constructor
  · exact (List.sorted_insertionSort planLE _).chain'
  · intro k
    exact filter_insertionSort_key k _

/-- Witness for C7 (C7's theorem has no hypotheses; this instantiates it at
a concrete input anyway). -/
theorem plan_sorted_spec_witness :
    List.Chain' (fun e₁ e₂ : PlanEntry => e₁.start_iso ≤ e₂.start_iso)
      (build_24h_plan 0 [liveFx (JField.int 1) (JField.int 1)]) :=
  (plan_sorted_spec 0 [liveFx (JField.int 1) (JField.int 1)]).1

/-- **C6.** The plan is, up to the kickoff sort, exactly the fixtures that
pass every guard; an individual fixture contributes an entry iff it passes
the competition filter, has a parseable kickoff `k` with
`now ≤ k ≤ now + 24h` (both bounds inclusive), and has a positive id. -/
theorem plan_filter_spec (now : ℤ) (fxs : List Fixture) :
    (build_24h_plan now fxs).Perm (fxs.filterMap (planEntryOf now)) ∧
    (∀ e : PlanEntry, e ∈ build_24h_plan now fxs ↔
      ∃ fx, fx ∈ fxs ∧ planEntryOf now fx = some e) ∧
    (∀ fx : Fixture, (planEntryOf now fx).isSome = true ↔
      (is_target_competition fx = true ∧
       ∃ k, parse_fixture_start_local fx = some k ∧ now ≤ k ∧
         k ≤ now + 24 * 3600 ∧ 0 < safe_int fx.id 0)) := by
  refine ⟨List.perm_insertionSort planLE _, ?_, ?_⟩
  · intro e
    rw [build_24h_plan, (List.perm_insertionSort planLE _).mem_iff]
    exact List.mem_filterMap
  · intro fx
    by_cases h1 : is_target_competition fx
    · rw [planEntryOf, if_neg (not_not_intro h1)]
      cases hparse : parse_fixture_start_local fx with
      | none => simp [h1]
      | some k =>
        dsimp only
        split_ifs with h2 h3 h4
        · simp only [Option.isSome_none]
          simp [h1]
          omega
        · simp only [Option.isSome_none]
          simp [h1]
          omega
        · simp only [Option.isSome_none]
          simp [h1]
          omega
        · simp only [Option.isSome_some, true_iff]
          exact ⟨h1, k, rfl, by omega, by omega, by omega⟩
    · rw [planEntryOf, if_pos h1]
      simp [h1]

/-- Witness for C6 (C6's theorem has no hypotheses; this instantiates the
guard characterization at a concrete in-window fixture). -/
theorem plan_filter_spec_witness :
    (planEntryOf 0 (liveFx (JField.int 1) (JField.int 1))).isSome = true :=
  ((plan_filter_spec 0 [liveFx (JField.int 1) (JField.int 1)]).2.2
      (liveFx (JField.int 1) (JField.int 1))).mpr
    ⟨by decide, 0, rfl, by decide, by decide, by decide⟩

/-- **C8.** `is_any_match_active_now` is true exactly when the instant lies
inside some entry's closed window `[kickoff+65min, kickoff+95min]`; in
particular it is true at `T+65m` and `T+95m` for a planned kickoff `T`, and
false at `T+64m` and `T+96m` whenever no entry's window (of any other
match either) contains that instant. -/
theorem active_window_spec (plan : List PlanEntry) (now : ℤ) :
    (is_any_match_active_now now plan = true ↔
      ∃ p, p ∈ plan ∧ p.start_iso + ACTIVE_FROM_MIN * 60 ≤ now ∧
        now ≤ p.start_iso + ACTIVE_TO_MIN * 60) ∧
    (∀ p, p ∈ plan →
      is_any_match_active_now (p.start_iso + 65 * 60) plan = true ∧
      is_any_match_active_now (p.start_iso + 95 * 60) plan = true ∧
      ((∀ q, q ∈ plan →
          ¬ (q.start_iso + ACTIVE_FROM_MIN * 60 ≤ p.start_iso + 64 * 60 ∧
             p.start_iso + 64 * 60 ≤ q.start_iso + ACTIVE_TO_MIN * 60)) →
        is_any_match_active_now (p.start_iso + 64 * 60) plan = false) ∧
      ((∀ q, q ∈ plan →
          ¬ (q.start_iso + ACTIVE_FROM_MIN * 60 ≤ p.start_iso + 96 * 60 ∧
             p.start_iso + 96 * 60 ≤ q.start_iso + ACTIVE_TO_MIN * 60)) →
        is_any_match_active_now (p.start_iso + 96 * 60) plan = false)) := by
  have hchar : ∀ t : ℤ, (is_any_match_active_now t plan = true ↔
      ∃ p, p ∈ plan ∧ p.start_iso + ACTIVE_FROM_MIN * 60 ≤ t ∧
        t ≤ p.start_iso + ACTIVE_TO_MIN * 60) := by
    intro t
    simp [is_any_match_active_now, List.any_eq_true]
  refine ⟨hchar now, fun p hp => ⟨?_, ?_, ?_, ?_⟩⟩
  · exact (hchar _).mpr ⟨p, hp, by simp only [ACTIVE_FROM_MIN, ACTIVE_TO_MIN]; omega⟩
  · exact (hchar _).mpr ⟨p, hp, by simp only [ACTIVE_FROM_MIN, ACTIVE_TO_MIN]; omega⟩
  · intro hq
    by_contra hne
    have ht : is_any_match_active_now (p.start_iso + 64 * 60) plan = true := by
      cases hb : is_any_match_active_now (p.start_iso + 64 * 60) plan
      · exact absurd hb hne
      · rfl
    obtain ⟨q, hq2, hcond⟩ := (hchar _).mp ht
    exact hq q hq2 hcond
  · intro hq
    by_contra hne
    have ht : is_any_match_active_now (p.start_iso + 96 * 60) plan = true := by
      cases hb : is_any_match_active_now (p.start_iso + 96 * 60) plan
      · exact absurd hb hne
      · rfl
    obtain ⟨q, hq2, hcond⟩ := (hchar _).mp ht
    exact hq q hq2 hcond

/-- Witness for C8: the window boundary `T+65m` of the concrete plan entry
is active. -/
theorem active_window_spec_witness :
    is_any_match_active_now (pe0.start_iso + 65 * 60) [pe0] = true :=
  ((active_window_spec [pe0] 0).2 pe0 (List.mem_singleton.mpr rfl)).1
